import Mathlib

/-!
Verification of the tuwunel federated event ingestion and authorization
pipeline: a shallow embedding in Lean 4 of the auth-chain resolver
(`fetch_and_handle_outliers`), the power-levels model
(`power_levels.rs`), the outlier store, the signature-verification
wrappers (`verify.rs`), and the federation `send_leave` endpoint,
together with theorems settling the specification's claims about them.
-/

namespace Tuwunel

/-! ## Basic order utilities

Rust's `Ord::cmp` on a totally ordered key type, returning an
`Ordering`.  Used to mirror `item.cmp(user_id)` in
`PowerLevelsContentFields::get_user_power`.
-/

def rustCmp {α : Type} [LinearOrder α] (a b : α) : Ordering :=
  if a < b then .lt else if b < a then .gt else .eq

/-! ## Binary search (`slice::binary_search_by`)

The exact loop of Rust's standard-library `binary_search_by`: narrow a
window `(base, size)` until `size = 1`, then compare once at `base`.
`cmp i` stands for `f(&self[i])`.
-/

def bsLoop (cmp : Nat → Ordering) (size base : Nat) : Nat :=
  if h : 1 < size then
    let half := size / 2
    let mid := base + half
    bsLoop cmp (size - half) (if cmp mid = .gt then base else mid)
  else base
termination_by size
decreasing_by
  simp_wf
  omega

def binary_search_by (cmp : Nat → Ordering) (len : Nat) : Except Nat Nat :=
  if len = 0 then .error 0
  else
    let base := bsLoop cmp len 0
    match cmp base with
    | .eq => .ok base
    | .lt => .error (base + 1)
    | .gt => .error base

/-! ## Power-levels fields-only view (`power_levels.rs`)

`PowerLevelsContentFields` holds only `(users, users_default)`; user
lookup is `binary_search_by` over the user-id-sorted vector
(`get_user_power`).
-/

structure PowerLevelsContentFields where
  users : List (String × Int)
  users_default : Int

/-- `PowerLevelsContentFields::get_user_power`: binary search of the
`users` vector by user id, returning the stored level if found. -/
def PowerLevelsContentFields.get_user_power
    (self : PowerLevelsContentFields) (user_id : String) : Option Int :=
  (binary_search_by
      (fun i => rustCmp (self.users.getD i ("", 0)).1 user_id)
      self.users.length).toOption.bind
    fun idx => (self.users.get? idx).map Prod.snd

/-- Linear scan reference: first entry whose user id equals the key
(stated from the specification, to be compared with the binary search). -/
def linear_scan_user_power (users : List (String × Int)) (user_id : String) :
    Option Int :=
  (users.find? fun p => p.1 == user_id).map Prod.snd

/-! ## Canonical JSON and room versions -/

/-- Canonical JSON values (ruma `CanonicalJsonValue`): the parsed form of
an event body or a power-levels content document. -/
inductive CJson : Type where
  | null : CJson
  | bool : Bool → CJson
  | int : Int → CJson
  | str : String → CJson
  | arr : List CJson → CJson
  | obj : List (String × CJson) → CJson

/-- A canonical JSON object (ruma `CanonicalJsonObject`): field list. -/
abbrev CObj := List (String × CJson)

def getField (fs : CObj) (k : String) : Option CJson :=
  (fs.find? fun p => p.1 == k).map Prod.snd

/-- `BTreeMap::insert`: overwrite the binding for `k` if present,
otherwise add it. -/
def insertField : CObj → String → CJson → CObj
  | [], k, v => [(k, v)]
  | (k', v') :: rest, k, v =>
    if k' = k then (k, v) :: rest else (k', v') :: insertField rest k v

/-- The room-version profile as the power-levels code consumes it: the
`integer_power_levels` flag selecting the strict or legacy encoding. -/
structure RoomVersion where
  integer_power_levels : Bool
deriving DecidableEq

/-! ## Power-levels parsing (`power_levels.rs`) -/

/-- Modelled from the spec: ruma's `default_power_level` constant, used
for absent `ban`/`kick`/`redact`/`state_default` fields under both
encodings (the codebase's concrete default power level, which is 50). -/
def default_power_level : Int := 50

/-- Strict value decoding (`Int` field of the serde structs in
`power_levels.rs`): only a native JSON integer is accepted. -/
def decode_int_strict : CJson → Option Int
  | .int n => some n
  | _ => none

def digits_to_nat : List Char → Nat → Option Nat
  | [], acc => some acc
  | c :: cs, acc =>
    if c.isDigit then digits_to_nat cs (acc * 10 + (c.toNat - 48)) else none

/-- Modelled from the spec: a numeric string as the legacy power-level
encoding accepts it (an optional minus sign followed by digits). -/
def parse_int_string (s : String) : Option Int :=
  match s.toList with
  | [] => none
  | '-' :: cs =>
    if cs = [] then none else (digits_to_nat cs 0).map fun n => -(n : Int)
  | cs => (digits_to_nat cs 0).map fun n => (n : Int)

/-- Modelled from the spec: legacy power-level values (ruma
`deserialize_v1_powerlevel`) accept a native integer or a numeric
string; anything else fails. -/
def decode_int_legacy : CJson → Option Int
  | .int n => some n
  | .str s => parse_int_string s
  | _ => none

/-- Decode the values of a user→level or event-type→level object. -/
def map_values (dec : CJson → Option Int) :
    List (String × CJson) → Option (List (String × Int))
  | [] => some []
  | p :: rest =>
    match dec p.2 with
    | none => none
    | some n => (map_values dec rest).map fun t => (p.1, n) :: t

/-- One numeric field with a serde `#[default]`: absent means the default
applies, present means the value must decode. -/
def field_int (dec : CJson → Option Int) (fs : CObj) (k : String) (d : Int) :
    Option Int :=
  match getField fs k with
  | none => some d
  | some v => dec v

/-- One map field (`users`/`events`): absent means empty, present must be
an object whose values all decode. -/
def field_map (dec : CJson → Option Int) (fs : CObj) (k : String) :
    Option (List (String × Int)) :=
  match getField fs k with
  | none => some []
  | some (.obj fields) => map_values dec fields
  | some _ => none

/-- The `notifications` field: absent defaults `room` to
`default_power_level`; present must be an object whose `room` field
(defaulting to `default_power_level`) decodes. -/
def field_notifications (dec : CJson → Option Int) (fs : CObj) : Option Int :=
  match getField fs "notifications" with
  | none => some default_power_level
  | some (.obj nfs) => field_int dec nfs "room" default_power_level
  | some _ => none

/-- ruma `RoomPowerLevelsEventContent` as populated by the `From`
conversions in `power_levels.rs`. -/
structure RoomPowerLevelsEventContent where
  ban : Int
  events : List (String × Int)
  events_default : Int
  invite : Int
  kick : Int
  redact : Int
  state_default : Int
  users : List (String × Int)
  users_default : Int
  notifications_room : Int
deriving DecidableEq

/-- The field-by-field deserialization shared by the strict struct
(`IntRoomPowerLevelsEventContent`) and the legacy deserializer; the two
differ only in the per-value decoder `dec`. -/
def decode_power_levels (dec : CJson → Option Int) :
    CJson → Option RoomPowerLevelsEventContent
  | .obj fs => do
    let ban ← field_int dec fs "ban" default_power_level
    let events ← field_map dec fs "events"
    let events_default ← field_int dec fs "events_default" 0
    let invite ← field_int dec fs "invite" 0
    let kick ← field_int dec fs "kick" default_power_level
    let redact ← field_int dec fs "redact" default_power_level
    let state_default ← field_int dec fs "state_default" default_power_level
    let users ← field_map dec fs "users"
    let users_default ← field_int dec fs "users_default" 0
    let nroom ← field_notifications dec fs
    pure ⟨ban, events, events_default, invite, kick, redact, state_default,
      users, users_default, nroom⟩
  | _ => none

/-- `deserialize_integer_power_levels`: strict parse via
`IntRoomPowerLevelsEventContent`, then the `From` conversion. -/
def deserialize_integer_power_levels (content : CJson) :
    Option RoomPowerLevelsEventContent :=
  decode_power_levels decode_int_strict content

/-- Modelled from the spec: ruma's legacy `RoomPowerLevelsEventContent`
deserializer (not in this tree) — same fields and defaults, but each
numeric value accepts an integer or a numeric string. -/
def deserialize_legacy_power_levels (content : CJson) :
    Option RoomPowerLevelsEventContent :=
  decode_power_levels decode_int_legacy content

/-- `deserialize_power_levels`: dispatch on the room version's
`integer_power_levels` flag. -/
def deserialize_power_levels (content : CJson) (room_version : RoomVersion) :
    Option RoomPowerLevelsEventContent :=
  if room_version.integer_power_levels then
    deserialize_integer_power_levels content
  else
    deserialize_legacy_power_levels content

/-! Shape predicate: what "the content matches the room version's
expected shape" means, written as a direct description of the JSON
tree. -/

/-- A numeric value has the shape the room version expects. -/
def value_shape_ok (rv : RoomVersion) : CJson → Bool
  | .int _ => true
  | .str s => !rv.integer_power_levels && (parse_int_string s).isSome
  | _ => false

def field_shape_ok (check : CJson → Bool) (fs : CObj) (k : String) : Bool :=
  match getField fs k with
  | none => true
  | some v => check v

def map_shape_ok (rv : RoomVersion) : CJson → Bool
  | .obj fields => fields.all fun p => value_shape_ok rv p.2
  | _ => false

/-- The power-levels content matches the room version's expected shape:
it is an object, every present numeric field has a version-acceptable
numeric value, `users`/`events` are objects of such values, and
`notifications`, when present, is an object whose `room` is such a
value. -/
def power_levels_shape_ok (rv : RoomVersion) : CJson → Bool
  | .obj fs =>
    field_shape_ok (value_shape_ok rv) fs "ban" &&
    field_shape_ok (map_shape_ok rv) fs "events" &&
    field_shape_ok (value_shape_ok rv) fs "events_default" &&
    field_shape_ok (value_shape_ok rv) fs "invite" &&
    field_shape_ok (value_shape_ok rv) fs "kick" &&
    field_shape_ok (value_shape_ok rv) fs "redact" &&
    field_shape_ok (value_shape_ok rv) fs "state_default" &&
    field_shape_ok (map_shape_ok rv) fs "users" &&
    field_shape_ok (value_shape_ok rv) fs "users_default" &&
    (match getField fs "notifications" with
     | none => true
     | some (.obj nfs) => field_shape_ok (value_shape_ok rv) nfs "room"
     | some _ => false)
  | _ => false

/-! ## Generic association maps (keyed stores) -/

def assocGet {β : Type} (m : List (String × β)) (k : String) : Option β :=
  (m.find? fun p => p.1 == k).map Prod.snd

/-- Keyed insert-or-overwrite (`HashMap`/database-map write). -/
def assocPut {β : Type} : List (String × β) → String → β → List (String × β)
  | [], k, v => [(k, v)]
  | (k', v') :: rest, k, v =>
    if k' = k then (k, v) :: rest else (k', v') :: assocPut rest k v

/-! ## Auth-chain resolver (`fetch_and_handle_outliers.rs`)

Shallow embedding of `fetch_and_handle_outliers`.  Time is a `Nat`
instant (`now` fixed across one call, entries store the instant of the
last attempt); the federation transport, the canonicalizer and the
external Event Admitter (`handle_outlier_pdu`) are injected through
`ResolverCtx`.  A trace records network fetches, admitter invocations,
successful persists and entries pushed into the returned `pdus`.
-/

/-- `bad_event_ratelimiter` content: event id → (last attempt instant,
failure count). -/
abbrev Registry := List (String × (Nat × Nat))

/-- `u64::saturating_add(1)` on the failure count. -/
def u64_saturating_add_one (n : Nat) : Nat :=
  if n < 2 ^ 64 - 1 then n + 1 else n

/-- The `back_off` closure of `fetch_and_handle_outliers`: vacant entry →
insert `(now, 1)`; occupied entry → overwrite the timestamp and
saturating-increment the count. -/
def back_off (reg : Registry) (now : Nat) (id : String) : Registry :=
  match assocGet reg id with
  | none => assocPut reg id (now, 1)
  | some (_, tries) => assocPut reg id (now, u64_saturating_add_one tries)

/-- Modelled from the spec: `continue_exponential_backoff_secs` (a
`tuwunel_core::utils` helper outside this tree) — keep backing off while
`elapsed < min(max_window, min_window * 2^failures)`. -/
def continue_exponential_backoff_secs (mn mx elapsed tries : Nat) : Bool :=
  elapsed < Nat.min mx (mn * 2 ^ tries)

/-- The backoff guard at the head of each loop iteration: an absent
ratelimiter entry never skips. -/
def backoff_skip (reg : Registry) (now mn mx : Nat) (id : String) : Bool :=
  match assocGet reg id with
  | some (time, tries) => continue_exponential_backoff_secs mn mx (now - time) tries
  | none => false

/-- Ruma `EventId` parse, reduced to what the resolver relies on: event
ids start with `$`. -/
def is_event_id (s : String) : Bool :=
  match s.toList with
  | '$' :: _ => true
  | _ => false

/-- The `auth_events` extraction: the field must be an array; each entry
that parses as an event id is enqueued, invalid entries are only
warned about. A missing or non-array field is only warned about. -/
def auth_event_ids (value : CObj) : List String :=
  match getField value "auth_events" with
  | some (.arr xs) =>
    xs.filterMap fun j =>
      match j with
      | .str s => if is_event_id s then some s else none
      | _ => none
  | _ => []

/-- Observable steps of one resolver call. -/
inductive Action : Type where
  | fetch : String → Action
  | validate : String → Action
  | persist : String → Action
  | resolved : String → Action
deriving DecidableEq

/-- The collaborators of one `fetch_and_handle_outliers` call:
`timeline` answers `get_pdu`/`pdu_exists`; `room_version` is
`get_room_version_id(create_event)`; `network` is the federation
`get_event` RPC toward `origin`; `gen` is `gen_event_id_canonical_json`;
`admitter` is the external Event Admitter's `handle_outlier_pdu`, returning
the processed canonical object on success.  Modelled from the spec: on
success the admitter persists the event to the outlier store. -/
structure ResolverCtx where
  timeline : List String
  room_version : Option RoomVersion
  network : String → Option CJson
  gen : RoomVersion → CJson → Option (String × CObj)
  admitter : String → CObj → Option CObj

/-- State threaded through the first (fetch) pass: the shared ratelimiter
registry, the per-request `events_in_reverse_order` and `events_all`,
and the global trace. -/
structure FetchState where
  reg : Registry
  fetched : List (String × CObj)
  seen : List String
  trace : List Action

/-- The inner `while let Some(next_id) = todo_auth_events.pop_front()`
loop: backoff guard, seen-set guard, local-store guard, then a
federation fetch whose auth references are appended to the queue.  The
canonicalized id is compared against the requested id only for a
warning; the entry is recorded under the requested id either way.
`fuel` bounds the traversal (the Rust loop's termination rests on the
finiteness of the reachable id set). -/
def fetch_loop (ctx : ResolverCtx) (now : Nat) :
    Nat → List String → FetchState → FetchState
  | 0, _, st => st
  | _ + 1, [], st => st
  | fuel + 1, next :: todo, st =>
    if backoff_skip st.reg now 120 28800 next then
      fetch_loop ctx now fuel todo st
    else if next ∈ st.seen then
      fetch_loop ctx now fuel todo st
    else if next ∈ ctx.timeline then
      fetch_loop ctx now fuel todo st
    else
      let st1 : FetchState := { st with trace := st.trace ++ [.fetch next] }
      match ctx.network next with
      | none =>
        fetch_loop ctx now fuel todo
          { st1 with reg := back_off st1.reg now next }
      | some raw =>
        match ctx.room_version with
        | none =>
          fetch_loop ctx now fuel todo
            { st1 with reg := back_off st1.reg now next }
        | some rv =>
          match ctx.gen rv raw with
          | none =>
            fetch_loop ctx now fuel todo
              { st1 with reg := back_off st1.reg now next }
          | some (_calculated_event_id, value) =>
            fetch_loop ctx now fuel (todo ++ auth_event_ids value)
              { st1 with
                fetched := st1.fetched ++ [(next, value)],
                seen := st1.seen ++ [next] }

/-- One element of `events_with_auth_events`. -/
structure OuterEntry where
  id : String
  local_pdu : Bool
  fetched : List (String × CObj)

/-- The first `for id in events` pass: a local hit short-circuits with no
network access; otherwise the auth chain of `id` is fetched with a fresh
queue, seen-set and `events_in_reverse_order`, while the registry and
trace are shared across ids. -/
def first_pass (ctx : ResolverCtx) (now fuel : Nat) :
    List String → Registry → List Action →
      List OuterEntry × Registry × List Action
  | [], reg, tr => ([], reg, tr)
  | id :: rest, reg, tr =>
    if id ∈ ctx.timeline then
      let r := first_pass ctx now fuel rest reg tr
      (⟨id, true, []⟩ :: r.1, r.2)
    else
      let st := fetch_loop ctx now fuel [id] ⟨reg, [], [], tr⟩
      let r := first_pass ctx now fuel rest st.reg st.trace
      (⟨id, false, st.fetched⟩ :: r.1, r.2)

/-- State threaded through the second (validation) pass. -/
structure AdmitState where
  reg : Registry
  store : List (String × CObj)
  pdus : List (String × Option CObj)
  trace : List Action

/-- The inner loop of the second pass over
`events_in_reverse_order.into_iter().rev()`: backoff guard with the
longer window, then `handle_outlier_pdu`; success persists the event
(and reports it resolved when it is the originally requested id),
failure records a backoff entry. -/
def second_pass_entries (ctx : ResolverCtx) (now : Nat) :
    List (String × CObj) → String → AdmitState → AdmitState
  | [], _, st => st
  | (next, value) :: rest, id, st =>
    if backoff_skip st.reg now 300 86400 next then
      second_pass_entries ctx now rest id st
    else
      let st1 : AdmitState := { st with trace := st.trace ++ [.validate next] }
      match ctx.admitter next value with
      | some json =>
        let st2 : AdmitState :=
          { st1 with
            store := assocPut st1.store next json,
            trace := st1.trace ++ [.persist next] }
        if next = id then
          second_pass_entries ctx now rest id
            { st2 with
              pdus := st2.pdus ++ [(next, some json)],
              trace := st2.trace ++ [.resolved next] }
        else
          second_pass_entries ctx now rest id st2
      | none =>
        second_pass_entries ctx now rest id
          { st1 with reg := back_off st1.reg now next }

/-- The second `for (id, local_pdu, events_in_reverse_order)` pass. -/
def second_pass (ctx : ResolverCtx) (now : Nat) :
    List OuterEntry → AdmitState → AdmitState
  | [], st => st
  | e :: rest, st =>
    let st1 : AdmitState :=
      if e.local_pdu then
        { st with
          pdus := st.pdus ++ [(e.id, none)],
          trace := st.trace ++ [.resolved e.id] }
      else st
    second_pass ctx now rest (second_pass_entries ctx now e.fetched.reverse e.id st1)

/-- `fetch_and_handle_outliers`: both passes, starting from the shared
registry and outlier store. -/
def fetch_and_handle_outliers (ctx : ResolverCtx) (now fuel : Nat)
    (events : List String) (reg0 : Registry)
    (store0 : List (String × CObj)) : AdmitState :=
  let r := first_pass ctx now fuel events reg0 []
  second_pass ctx now r.1 ⟨r.2.1, store0, [], r.2.2⟩

/-- Number of federation `get_event` requests in a trace. -/
def count_fetches (tr : List Action) : Nat :=
  tr.countP fun a =>
    match a with
    | .fetch _ => true
    | _ => false

/-! The C1 scenario: the resolver is given `[$E1]`; `$E1` is not locally
known, its auth events are `$A1` (local) and `$A2` (one successful
fetch, referencing the local `$A3`); every admitter call succeeds. -/

def scn1Ctx : ResolverCtx where
  timeline := ["$A1", "$A3"]
  room_version := some ⟨true⟩
  network := fun id =>
    if id = "$E1" then some (.obj [("t", .str "E1")])
    else if id = "$A2" then some (.obj [("t", .str "A2")])
    else none
  gen := fun _ raw =>
    match raw with
    | .obj [("t", .str "E1")] =>
      some ("$E1", [("auth_events", .arr [.str "$A1", .str "$A2"])])
    | .obj [("t", .str "A2")] =>
      some ("$A2", [("auth_events", .arr [.str "$A3"])])
    | _ => none
  admitter := fun _ value => some value

def scn1Run : AdmitState := fetch_and_handle_outliers scn1Ctx 0 10 ["$E1"] [] []

/-! The C2 scenario: the origin answers the fetch of `$X` with an event
whose canonicalized id is `$Y ≠ $X`. -/

def scn2Ctx : ResolverCtx where
  timeline := []
  room_version := some ⟨true⟩
  network := fun id => if id = "$X" then some (.obj [("t", .str "X")]) else none
  gen := fun _ raw =>
    match raw with
    | .obj [("t", .str "X")] => some ("$Y", [("k", .int 1)])
    | _ => none
  admitter := fun _ value => some value

def scn2Run : AdmitState := fetch_and_handle_outliers scn2Ctx 0 10 ["$X"] [] []

/-! ## Backoff-registry evolution (C3) -/

/-- Failure count of a registry entry (0 when absent). -/
def regCount (o : Option (Nat × Nat)) : Nat := (o.map Prod.snd).getD 0

/-- One resolver call changes the registry only by failure recording:
every id is either untouched or holds a `(now, k)` entry whose count is
positive and did not decrease. -/
def RegEvolves (now : Nat) (reg reg' : Registry) : Prop :=
  ∀ id, assocGet reg' id = assocGet reg id ∨
    ∃ k, assocGet reg' id = some (now, k) ∧ 1 ≤ k ∧
      regCount (assocGet reg id) ≤ k

/-! ## Power-level change authorization (C5)

`full_user_deactivate` (`api/client/account.rs`) and `force_demote`
(`admin/user/commands.rs`) both compute

  `user_can_demote_self = power_levels.is_some_and(|pl|
      pl.user_can_change_user_power_level(user, user))
    || create_event.sender == user`.
-/

/-- Explicit override level or `users_default` for a user. -/
def effective_power (pl : RoomPowerLevelsEventContent) (user : String) : Int :=
  ((pl.users.find? fun p => p.1 == user).map Prod.snd).getD pl.users_default

/-- The power required to issue a power-levels state event: the
per-event-type override for `m.room.power_levels`, else
`state_default`. -/
def power_levels_change_threshold (pl : RoomPowerLevelsEventContent) : Int :=
  ((pl.events.find? fun p => p.1 == "m.room.power_levels").map
    Prod.snd).getD pl.state_default

/-- Modelled from the spec: ruma's
`RoomPowerLevels::user_can_change_user_power_level` (not in this tree) —
an actor may change a user's level only if the actor's effective power
meets the power-levels-change threshold and exceeds the target's
effective power. -/
def user_can_change_user_power_level (pl : RoomPowerLevelsEventContent)
    (actor target : String) : Bool :=
  decide (power_levels_change_threshold pl ≤ effective_power pl actor) &&
  decide (effective_power pl target < effective_power pl actor)

/-- The call-site predicate of `full_user_deactivate`/`force_demote`,
generalized to an actor/target pair: the room's power levels grant the
change, or the actor is the creation-event sender adjusting only their
own level (also when no power-levels event exists). -/
def can_change_user_power_level
    (room_power_levels : Option RoomPowerLevelsEventContent)
    (create_sender actor target : String) : Bool :=
  (match room_power_levels with
   | some pl => user_can_change_user_power_level pl actor target
   | none => false) ||
  (create_sender == actor && actor == target)

/-! ## Outlier store (`rooms/outlier/mod.rs`) -/

/-- Database error relevant to the outlier store. -/
inductive DbError : Type where
  | notFound : DbError
deriving DecidableEq

/-- Modelled from the spec: the `eventid_outlierpdu` database map is a
key→canonical-object store whose `raw_put` overwrites. -/
abbrev OutlierDb := List (String × CObj)

/-- `add_pdu_outlier`: `raw_put(event_id, Json(pdu))`. -/
def add_pdu_outlier (db : OutlierDb) (event_id : String) (pdu : CObj) :
    OutlierDb :=
  assocPut db event_id pdu

/-- `get_outlier_pdu_json`: read from `eventid_outlierpdu`, a miss
deserializing to `NotFound`. -/
def get_outlier_pdu_json (db : OutlierDb) (event_id : String) :
    Except DbError CObj :=
  match assocGet db event_id with
  | some v => .ok v
  | none => .error .notFound

/-- Failures of `validate_and_add_event_id`(`_no_fetch`). -/
inductive VerifyError : Type where
  | formatError : VerifyError
  | badServerResponse : VerifyError
deriving DecidableEq

/-- `validate_and_add_event_id`: canonicalize and derive the id (`gen`,
the external `gen_event_id_canonical_json`), verify hashes/signatures
(`verify`, the key-directory-backed `verify_event`), and only then stamp
`event_id` into the object. -/
def validate_and_add_event_id (gen : CJson → Option (String × CObj))
    (verify : CObj → Bool) (pdu : CJson) : Except VerifyError (String × CObj) :=
  match gen pdu with
  | none => .error .formatError
  | some (event_id, value) =>
    if verify value then
      .ok (event_id, insertField value "event_id" (.str event_id))
    else
      .error .badServerResponse

/-- `validate_and_add_event_id_no_fetch`: additionally fail fast when a
required signing key is not already cached (`required_keys_exist`). -/
def validate_and_add_event_id_no_fetch (gen : CJson → Option (String × CObj))
    (required_keys_exist : CObj → Bool) (verify : CObj → Bool) (pdu : CJson) :
    Except VerifyError (String × CObj) :=
  match gen pdu with
  | none => .error .formatError
  | some (event_id, value) =>
    if ¬ required_keys_exist value then
      .error .badServerResponse
    else if verify value then
      .ok (event_id, insertField value "event_id" (.str event_id))
    else
      .error .badServerResponse

/-! ## Federation `send_leave` endpoint (`api/server/send_leave.rs`) -/

/-- Request-level errors of `create_leave_event`, in source order. -/
inductive LeaveError : Type where
  | roomUnknown : LeaveError
  | aclDenied : LeaveError
  | versionUnknown : LeaveError
  | badCanonicalJson : LeaveError
  | missingRoomId : LeaveError
  | badRoomId : LeaveError
  | roomIdMismatch : LeaveError
  | missingContent : LeaveError
  | badContent : LeaveError
  | nonLeaveMembership : LeaveError
  | missingType : LeaveError
  | badType : LeaveError
  | nonMembershipType : LeaveError
  | missingSender : LeaveError
  | badSender : LeaveError
  | aclSenderDenied : LeaveError
  | originMismatch : LeaveError
  | missingStateKey : LeaveError
  | badStateKey : LeaveError
  | stateKeyMismatch : LeaveError
  | admitFailed : LeaveError
  | notAccepted : LeaveError
deriving DecidableEq

/-- The collaborators of `create_leave_event`: room existence, ACL
checks by server name, the room's version, the canonicalizer and the
Event Admitter (`handle_incoming_pdu`, whose error propagates to the
requester and whose `Ok(None)` means the event was not accepted as a
timeline event). -/
structure LeaveCtx where
  room_exists : Bool
  acl_check : String → Bool
  room_version : Option RoomVersion
  gen : RoomVersion → CJson → Option (String × CObj)
  handle_incoming_pdu : String → CObj → Except Unit (Option String)

/-- Modelled from the spec/ruma: ruma room ids begin with `!`. -/
def is_room_id (s : String) : Bool :=
  match s.toList with
  | '!' :: _ => true
  | _ => false

/-- Modelled from the spec/ruma: a user id `@local:server` parses into
its server name; anything else is not a user id. -/
def user_id_server_name (s : String) : Option String :=
  match s.toList with
  | '@' :: rest =>
    match rest.dropWhile (fun c => c != ':') with
    | ':' :: server => some (String.mk server)
    | _ => none
  | _ => none

def guard_leave (b : Bool) (e : LeaveError) : Except LeaveError Unit :=
  if b then .ok () else .error e

def option_or {α : Type} (o : Option α) (e : LeaveError) :
    Except LeaveError α :=
  match o with
  | some a => .ok a
  | none => .error e

/-- A field that must be present and a string (serde string-type parse
from the canonical object). -/
def get_string_field (value : CObj) (k : String) (missing bad : LeaveError) :
    Except LeaveError String :=
  match getField value k with
  | none => .error missing
  | some (.str s) => .ok s
  | some _ => .error bad

/-- The `RoomMemberEventContent` parse, reduced to what the endpoint
uses: `content` must be an object with a string `membership`. -/
def get_membership (value : CObj) : Except LeaveError String :=
  match getField value "content" with
  | none => .error .missingContent
  | some (.obj cfs) =>
    match getField cfs "membership" with
    | some (.str m) => .ok m
    | _ => .error .badContent
  | some _ => .error .badContent

/-- The request checks of `create_leave_event`, in source order, ending
with the `(event_id, value)` handed to the admitter. -/
def leave_checks (ctx : LeaveCtx) (origin room_id : String) (pdu : CJson) :
    Except LeaveError (String × CObj) := do
  let _ ← guard_leave ctx.room_exists .roomUnknown
  let _ ← guard_leave (ctx.acl_check origin) .aclDenied
  let rv ← option_or ctx.room_version .versionUnknown
  let pr ← option_or (ctx.gen rv pdu) .badCanonicalJson
  let event_room_id ← get_string_field pr.2 "room_id" .missingRoomId .badRoomId
  let _ ← guard_leave (is_room_id event_room_id) .badRoomId
  let _ ← guard_leave (event_room_id == room_id) .roomIdMismatch
  let membership ← get_membership pr.2
  let _ ← guard_leave (membership == "leave") .nonLeaveMembership
  let event_type ← get_string_field pr.2 "type" .missingType .badType
  let _ ← guard_leave (event_type == "m.room.member") .nonMembershipType
  let sender ← get_string_field pr.2 "sender" .missingSender .badSender
  let sender_server ← option_or (user_id_server_name sender) .badSender
  let _ ← guard_leave (ctx.acl_check sender_server) .aclSenderDenied
  let _ ← guard_leave (sender_server == origin) .originMismatch
  let state_key ← get_string_field pr.2 "state_key" .missingStateKey .badStateKey
  let _ ← option_or (user_id_server_name state_key) .badStateKey
  let _ ← guard_leave (state_key == sender) .stateKeyMismatch
  pure pr

/-- `create_leave_event`: the checks, then `handle_incoming_pdu` under
the federation mutex; the second component records whether the admitter
was invoked. -/
def create_leave_event (ctx : LeaveCtx) (origin room_id : String)
    (pdu : CJson) : Except LeaveError Unit × Bool :=
  match leave_checks ctx origin room_id pdu with
  | .error e => (.error e, false)
  | .ok pr =>
    match ctx.handle_incoming_pdu pr.1 pr.2 with
    | .error _ => (.error .admitFailed, true)
    | .ok none => (.error .notAccepted, true)
    | .ok (some _) => (.ok (), true)

/-! The four request-shape conditions named by the claim, stated
directly on the canonicalized event body. -/

def leave_room_id_matches (value : CObj) (room_id : String) : Bool :=
  match getField value "room_id" with
  | some (.str s) => s == room_id
  | _ => false

def leave_membership_is_leave (value : CObj) : Bool :=
  match getField value "content" with
  | some (.obj cfs) =>
    match getField cfs "membership" with
    | some (.str m) => m == "leave"
    | _ => false
  | _ => false

def leave_type_is_member (value : CObj) : Bool :=
  match getField value "type" with
  | some (.str t) => t == "m.room.member"
  | _ => false

def leave_sender_from_origin (value : CObj) (origin : String) : Bool :=
  match getField value "sender" with
  | some (.str s) =>
    match user_id_server_name s with
    | some srv => srv == origin
    | none => false
  | _ => false

/-! The C9 counterexample scenario: a perfectly shaped leave request
whose admission fails. -/

def scn3Value : CObj :=
  [("room_id", .str "!r:s"),
   ("content", .obj [("membership", .str "leave")]),
   ("type", .str "m.room.member"),
   ("sender", .str "@u:s"),
   ("state_key", .str "@u:s")]

def scn3Ctx : LeaveCtx where
  room_exists := true
  acl_check := fun _ => true
  room_version := some ⟨true⟩
  gen := fun _ p =>
    match p with
    | .obj fs => some ("$L", fs)
    | _ => none
  handle_incoming_pdu := fun _ _ => .error ()

/-! ## Theorems -/

theorem rustCmp_eq_iff {α : Type} [LinearOrder α] (a b : α) :
    rustCmp a b = .eq ↔ a = b := by
  unfold rustCmp
  rcases lt_trichotomy a b with h | h | h
  · simp [h, ne_of_lt h]
  · simp [h, lt_irrefl]
  · simp [h, not_lt_of_gt h, (ne_of_gt h)]

theorem rustCmp_lt_iff {α : Type} [LinearOrder α] (a b : α) :
    rustCmp a b = .lt ↔ a < b := by
  unfold rustCmp
  rcases lt_trichotomy a b with h | h | h
  · simp [h]
  · simp [h, lt_irrefl]
  · simp [not_lt_of_gt h, h]

theorem rustCmp_gt_iff {α : Type} [LinearOrder α] (a b : α) :
    rustCmp a b = .gt ↔ b < a := by
  unfold rustCmp
  rcases lt_trichotomy a b with h | h | h
  · simp [h, not_lt_of_gt h]
  · simp [h, lt_irrefl]
  · simp [h, not_lt_of_gt h]

theorem bsLoop_eq (cmp : Nat → Ordering) (size base : Nat) :
    bsLoop cmp size base =
      if 1 < size then
        bsLoop cmp (size - size / 2)
          (if cmp (base + size / 2) = .gt then base else base + size / 2)
      else base := by
  rw [bsLoop]
  split <;> rfl

theorem rustCmp_ne_gt_iff {α : Type} [LinearOrder α] (a b : α) :
    ¬ rustCmp a b = .gt ↔ a ≤ b := by
  rw [rustCmp_gt_iff, not_lt]

/-- Window invariant of the `binary_search_by` loop: all keys left of the
window are below the needle, all keys right of it are above; the loop
narrows the window to a single index preserving both sides. -/
theorem bsLoop_spec {α : Type} [LinearOrder α] (key : Nat → α) (k : α) (len : Nat)
    (hsorted : ∀ i j, i < j → j < len → key i < key j) :
    ∀ size base, 1 ≤ size → base + size ≤ len →
      (∀ i, i < base → key i < k) →
      (∀ i, base + size ≤ i → i < len → k < key i) →
      bsLoop (fun i => rustCmp (key i) k) size base < len ∧
      (∀ i, i < bsLoop (fun i => rustCmp (key i) k) size base → key i < k) ∧
      (∀ i, bsLoop (fun i => rustCmp (key i) k) size base < i → i < len →
        k < key i) := by
  intro size
  induction size using Nat.strong_induction_on with
  | _ size ih =>
    intro base h1 hlen hlow hhigh
    rw [bsLoop_eq]
    by_cases hs : 1 < size
    · simp only [hs, if_true]
      have hhalf1 : 1 ≤ size / 2 := by omega
      have hmidlt : base + size / 2 < len := by omega
      by_cases hgt : rustCmp (key (base + size / 2)) k = .gt
      · simp only [hgt, if_true]
        refine ih (size - size / 2) (by omega) base (by omega) (by omega) hlow ?_
        intro i hi hilen
        have hmid : k < key (base + size / 2) := (rustCmp_gt_iff _ _).mp hgt
        rcases Nat.eq_or_lt_of_le (show base + size / 2 ≤ i by omega) with h | h
        · rw [← h]; exact hmid
        · exact lt_trans hmid (hsorted _ i h hilen)
      · simp only [hgt, if_false]
        have hmid : key (base + size / 2) ≤ k := (rustCmp_ne_gt_iff _ _).mp hgt
        refine ih (size - size / 2) (by omega) (base + size / 2) (by omega)
          (by omega) ?_ ?_
        · intro i hi
          exact lt_of_lt_of_le (hsorted i _ hi hmidlt) hmid
        · intro i hi hilen
          exact hhigh i (by omega) hilen
    · simp only [hs, if_false]
      have hsize : size = 1 := by omega
      refine ⟨by omega, hlow, ?_⟩
      intro i hbi hilen
      exact hhigh i (by omega) hilen

/-- `List.find?` returns the element at the first matching position. -/
theorem find?_eq_of_first {α : Type} (p : α → Bool) :
    ∀ (l : List α) (n : Nat) (x : α), l.get? n = some x → p x = true →
      (∀ i y, i < n → l.get? i = some y → p y = false) →
      l.find? p = some x := by
  intro l
  induction l with
  | nil => intro n x h _ _; simp at h
  | cons a t ih =>
    intro n x hget hp hbefore
    cases n with
    | zero =>
      simp only [List.get?] at hget
      cases hget
      simp [List.find?_cons_of_pos _ hp]
    | succ n =>
      have ha : p a = false := hbefore 0 a (Nat.succ_pos n) rfl
      rw [List.find?_cons_of_neg _ (by simp [ha])]
      exact ih n x (by simpa using hget) hp
        (fun i y hi hg => hbefore (i + 1) y (by omega) (by simpa using hg))

theorem users_key_sorted {pl : PowerLevelsContentFields}
    (hsorted : pl.users.Pairwise (fun a b => a.1 < b.1)) :
    ∀ i j, i < j → j < pl.users.length →
      (pl.users.getD i ("", 0)).1 < (pl.users.getD j ("", 0)).1 := by
  intro i j hij hj
  have hi : i < pl.users.length := lt_trans hij hj
  rw [List.getD_eq_get?, List.getD_eq_get?, List.get?_eq_get hi,
    List.get?_eq_get hj]
  exact (List.pairwise_iff_get.mp hsorted) ⟨i, hi⟩ ⟨j, hj⟩ hij

/-- C4: on a user-id-sorted `users` vector, the binary-search lookup
`get_user_power` agrees with a linear scan for every key, and an absent
user takes the `users_default` level. -/
theorem get_user_power_eq_linear_scan
    (pl : PowerLevelsContentFields) (user_id : String)
    (hsorted : pl.users.Pairwise (fun a b => a.1 < b.1)) :
    pl.get_user_power user_id = linear_scan_user_power pl.users user_id ∧
    ((∀ p ∈ pl.users, p.1 ≠ user_id) →
      (pl.get_user_power user_id).getD pl.users_default = pl.users_default) := by
  have hmain :
      pl.get_user_power user_id = linear_scan_user_power pl.users user_id := by
    by_cases h0 : pl.users.length = 0
    · have hnil : pl.users = [] := List.length_eq_zero.mp h0
      simp [PowerLevelsContentFields.get_user_power, linear_scan_user_power,
        hnil, binary_search_by, Except.toOption]
    · obtain ⟨hblt, hlow, hhigh⟩ :=
        bsLoop_spec (fun i => (pl.users.getD i ("", 0)).1) user_id
          pl.users.length (users_key_sorted hsorted) pl.users.length 0
          (by omega) (by omega)
          (by intro i hi; exact absurd hi (Nat.not_lt_zero i))
          (by intro i h1 h2; exact absurd h2 (by omega))
      rw [PowerLevelsContentFields.get_user_power, binary_search_by]
      simp only [h0, if_false]
      cases hc : rustCmp
          (pl.users.getD
            (bsLoop (fun i => rustCmp (pl.users.getD i ("", 0)).1 user_id)
              pl.users.length 0) ("", 0)).1 user_id with
      | eq =>
        have hkey := (rustCmp_eq_iff _ _).mp hc
        simp only [hc, Except.toOption, Option.bind]
        rw [List.get?_eq_get hblt]
        refine Eq.symm ?_
        unfold linear_scan_user_power
        rw [find?_eq_of_first _ pl.users _ _ (List.get?_eq_get hblt) ?_ ?_]
        · have hgd : pl.users.getD
              (bsLoop (fun i => rustCmp (pl.users.getD i ("", 0)).1 user_id)
                pl.users.length 0) ("", 0) = pl.users.get ⟨_, hblt⟩ := by
            rw [List.getD_eq_get?, List.get?_eq_get hblt]
            rfl
          have : (pl.users.get ⟨_, hblt⟩).1 = user_id :=
            ((congrArg Prod.fst hgd).symm).trans hkey
          simpa using this
        · intro i y hi hg
          obtain ⟨hilt, rfl⟩ := List.get?_eq_some.mp hg
          have hkl := hlow i hi
          rw [List.getD_eq_get?, List.get?_eq_get hilt] at hkl
          simp only [Option.getD_some] at hkl
          exact beq_eq_false_iff_ne.mpr (ne_of_lt hkl)
      | lt =>
        have hkb := (rustCmp_lt_iff _ _).mp hc
        simp only [hc, Except.toOption, Option.bind]
        refine Eq.symm ?_
        unfold linear_scan_user_power
        rw [List.find?_eq_none.mpr ?_]
        · rfl
        · intro x hx
          obtain ⟨⟨i, hilt⟩, rfl⟩ := List.mem_iff_get.mp hx
          have hkey : (pl.users.get ⟨i, hilt⟩).1 = (pl.users.getD i ("", 0)).1 := by
            rw [List.getD_eq_get?, List.get?_eq_get hilt]; rfl
          rcases lt_trichotomy i
              (bsLoop (fun j => rustCmp (pl.users.getD j ("", 0)).1 user_id)
                pl.users.length 0) with h | h | h
          · have := hlow i h
            simp only [hkey]
            exact by simpa using ne_of_lt this
          · subst h
            simp only [hkey]
            exact by simpa using ne_of_lt hkb
          · have := hhigh i h hilt
            simp only [hkey]
            exact by simpa using (ne_of_gt this)
      | gt =>
        have hkb := (rustCmp_gt_iff _ _).mp hc
        simp only [hc, Except.toOption, Option.bind]
        refine Eq.symm ?_
        unfold linear_scan_user_power
        rw [List.find?_eq_none.mpr ?_]
        · rfl
        · intro x hx
          obtain ⟨⟨i, hilt⟩, rfl⟩ := List.mem_iff_get.mp hx
          have hkey : (pl.users.get ⟨i, hilt⟩).1 = (pl.users.getD i ("", 0)).1 := by
            rw [List.getD_eq_get?, List.get?_eq_get hilt]; rfl
          rcases lt_trichotomy i
              (bsLoop (fun j => rustCmp (pl.users.getD j ("", 0)).1 user_id)
                pl.users.length 0) with h | h | h
          · have := hlow i h
            simp only [hkey]
            exact by simpa using ne_of_lt this
          · subst h
            simp only [hkey]
            exact by simpa using (ne_of_gt hkb)
          · have := hhigh i h hilt
            simp only [hkey]
            exact by simpa using (ne_of_gt this)
  refine ⟨hmain, ?_⟩
  intro habsent
  rw [hmain]
  unfold linear_scan_user_power
  rw [List.find?_eq_none.mpr ?_]
  · rfl
  · intro x hx
    simpa using habsent x hx

theorem demo_users_sorted :
    ([("@a:x", (5 : Int)), ("@b:x", 9)]).Pairwise
      (fun a b : String × Int => a.1 < b.1) := by
  have h1 : ("@a:x" : String) < "@b:x" := by
    rw [String.lt_iff_toList_lt]
    decide
  refine List.Pairwise.cons ?_ (List.pairwise_singleton _ _)
  intro p hp
  rw [List.mem_singleton] at hp
  subst hp
  exact h1

/-- C4 witness: the equivalence applied to a concrete sorted vector. -/
theorem get_user_power_eq_linear_scan_witness :
    ([("@a:x", (5 : Int)), ("@b:x", 9)]).Pairwise
      (fun a b : String × Int => a.1 < b.1) ∧
    (PowerLevelsContentFields.mk [("@a:x", 5), ("@b:x", 9)] 0).get_user_power
        "@b:x" =
      linear_scan_user_power [("@a:x", 5), ("@b:x", 9)] "@b:x" :=
  ⟨demo_users_sorted,
    (get_user_power_eq_linear_scan
      (PowerLevelsContentFields.mk [("@a:x", 5), ("@b:x", 9)] 0) "@b:x"
      demo_users_sorted).1⟩

theorem decode_int_strict_isSome (rv : RoomVersion)
    (hrv : rv.integer_power_levels = true) (v : CJson) :
    (decode_int_strict v).isSome = value_shape_ok rv v := by
  cases v <;> simp [decode_int_strict, value_shape_ok, hrv]

theorem decode_int_legacy_isSome (rv : RoomVersion)
    (hrv : rv.integer_power_levels = false) (v : CJson) :
    (decode_int_legacy v).isSome = value_shape_ok rv v := by
  cases v <;> simp [decode_int_legacy, value_shape_ok, hrv]

theorem map_values_isSome (dec : CJson → Option Int) (check : CJson → Bool)
    (h : ∀ v, (dec v).isSome = check v) :
    ∀ l : List (String × CJson),
      (map_values dec l).isSome = l.all fun p => check p.2 := by
  intro l
  induction l with
  | nil => simp [map_values]
  | cons p rest ih =>
    rw [List.all_cons, ← h p.2, ← ih]
    cases hd : dec p.2 with
    | none => simp [map_values, hd]
    | some n =>
      cases hm : map_values dec rest with
      | none => simp [map_values, hd, hm]
      | some t => simp [map_values, hd, hm]

theorem field_int_isSome (dec : CJson → Option Int) (check : CJson → Bool)
    (h : ∀ v, (dec v).isSome = check v) (fs : CObj) (k : String) (d : Int) :
    (field_int dec fs k d).isSome = field_shape_ok check fs k := by
  unfold field_int field_shape_ok
  cases getField fs k with
  | none => simp
  | some v => simp [h v]

theorem field_map_isSome (rv : RoomVersion) (dec : CJson → Option Int)
    (h : ∀ v, (dec v).isSome = value_shape_ok rv v) (fs : CObj) (k : String) :
    (field_map dec fs k).isSome = field_shape_ok (map_shape_ok rv) fs k := by
  unfold field_map field_shape_ok
  cases hv : getField fs k with
  | none => simp
  | some v =>
    cases v <;>
      simp [map_shape_ok, map_values_isSome dec (value_shape_ok rv) h]

theorem field_notifications_isSome (rv : RoomVersion)
    (dec : CJson → Option Int)
    (h : ∀ v, (dec v).isSome = value_shape_ok rv v) (fs : CObj) :
    (field_notifications dec fs).isSome =
      (match getField fs "notifications" with
       | none => true
       | some (.obj nfs) => field_shape_ok (value_shape_ok rv) nfs "room"
       | some _ => false) := by
  unfold field_notifications
  cases hv : getField fs "notifications" with
  | none => simp
  | some v =>
    cases v <;> simp [field_int_isSome dec (value_shape_ok rv) h]

theorem decode_power_levels_isSome (rv : RoomVersion)
    (dec : CJson → Option Int)
    (h : ∀ v, (dec v).isSome = value_shape_ok rv v) (c : CJson) :
    (decode_power_levels dec c).isSome = power_levels_shape_ok rv c := by
  cases c with
  | obj fs =>
    rw [power_levels_shape_ok]
    rw [← field_int_isSome dec _ h fs "ban" default_power_level,
      ← field_map_isSome rv dec h fs "events",
      ← field_int_isSome dec _ h fs "events_default" 0,
      ← field_int_isSome dec _ h fs "invite" 0,
      ← field_int_isSome dec _ h fs "kick" default_power_level,
      ← field_int_isSome dec _ h fs "redact" default_power_level,
      ← field_int_isSome dec _ h fs "state_default" default_power_level,
      ← field_map_isSome rv dec h fs "users",
      ← field_int_isSome dec _ h fs "users_default" 0,
      ← field_notifications_isSome rv dec h fs]
    rw [decode_power_levels]
    cases h1 : field_int dec fs "ban" default_power_level <;>
      simp only [h1, Option.bind_eq_bind, Option.none_bind, Option.some_bind,
        Option.isSome_none, Option.isSome_some, Bool.false_and, Bool.true_and]
    cases h2 : field_map dec fs "events" <;>
      simp only [h2, Option.none_bind, Option.some_bind, Option.isSome_none,
        Option.isSome_some, Bool.false_and, Bool.true_and]
    cases h3 : field_int dec fs "events_default" 0 <;>
      simp only [h3, Option.none_bind, Option.some_bind, Option.isSome_none,
        Option.isSome_some, Bool.false_and, Bool.true_and]
    cases h4 : field_int dec fs "invite" 0 <;>
      simp only [h4, Option.none_bind, Option.some_bind, Option.isSome_none,
        Option.isSome_some, Bool.false_and, Bool.true_and]
    cases h5 : field_int dec fs "kick" default_power_level <;>
      simp only [h5, Option.none_bind, Option.some_bind, Option.isSome_none,
        Option.isSome_some, Bool.false_and, Bool.true_and]
    cases h6 : field_int dec fs "redact" default_power_level <;>
      simp only [h6, Option.none_bind, Option.some_bind, Option.isSome_none,
        Option.isSome_some, Bool.false_and, Bool.true_and]
    cases h7 : field_int dec fs "state_default" default_power_level <;>
      simp only [h7, Option.none_bind, Option.some_bind, Option.isSome_none,
        Option.isSome_some, Bool.false_and, Bool.true_and]
    cases h8 : field_map dec fs "users" <;>
      simp only [h8, Option.none_bind, Option.some_bind, Option.isSome_none,
        Option.isSome_some, Bool.false_and, Bool.true_and]
    cases h9 : field_int dec fs "users_default" 0 <;>
      simp only [h9, Option.none_bind, Option.some_bind, Option.isSome_none,
        Option.isSome_some, Bool.false_and, Bool.true_and]
    cases h10 : field_notifications dec fs <;>
      simp only [h10, Option.none_bind, Option.some_bind, Option.isSome_none,
        Option.isSome_some, Bool.false_and, Bool.true_and, Option.pure_def]
  | null => rfl
  | bool b => rfl
  | int n => rfl
  | str s => rfl
  | arr l => rfl

/-- C6: under the strict encoding a string where an integer is required
fails the whole parse and `deserialize_power_levels` returns `None`
without panicking; in general `deserialize_power_levels` returns `None`
exactly when the content does not match the room version's expected
shape. -/
theorem deserialize_power_levels_none_iff :
    (∀ (content : CJson) (rv : RoomVersion),
      deserialize_power_levels content rv = none ↔
        power_levels_shape_ok rv content = false) ∧
    deserialize_power_levels
      (.obj [("ban", .str "50")]) (RoomVersion.mk true) = none := by
  constructor
  · intro content rv
    have hsome : (deserialize_power_levels content rv).isSome =
        power_levels_shape_ok rv content := by
      unfold deserialize_power_levels
      cases hrv : rv.integer_power_levels with
      | true =>
        rw [if_pos rfl]
        exact decode_power_levels_isSome rv decode_int_strict
          (decode_int_strict_isSome rv hrv) content
      | false =>
        rw [if_neg (by simp)]
        exact decode_power_levels_isSome rv decode_int_legacy
          (decode_int_legacy_isSome rv hrv) content
    constructor
    · intro hnone
      rw [← hsome, hnone]
      rfl
    · intro hshape
      rw [← hsome] at hshape
      cases hd : deserialize_power_levels content rv with
      | none => rfl
      | some r => exact absurd (hd ▸ hshape) (by simp)
  · rfl

theorem assocGet_assocPut_self {β : Type} :
    ∀ (m : List (String × β)) (k : String) (v : β),
      assocGet (assocPut m k v) k = some v := by
  intro m k v
  induction m with
  | nil => simp [assocGet, assocPut, List.find?]
  | cons p rest ih =>
    by_cases h : p.1 = k
    · simp [assocPut, h, assocGet, List.find?]
    · simp only [assocPut]
      rw [if_neg (by exact h)]
      rw [assocGet, List.find?]
      rw [show (p.1 == k) = false from beq_eq_false_iff_ne.mpr h]
      exact ih

theorem assocGet_assocPut_ne {β : Type} :
    ∀ (m : List (String × β)) (k k' : String) (v : β), k' ≠ k →
      assocGet (assocPut m k' v) k = assocGet m k := by
  intro m k k' v hne
  induction m with
  | nil =>
    simp [assocGet, assocPut, List.find?,
      show (k' == k) = false from beq_eq_false_iff_ne.mpr hne]
  | cons p rest ih =>
    by_cases h : p.1 = k'
    · simp only [assocPut]
      rw [if_pos h]
      rw [assocGet, assocGet, List.find?, List.find?,
        show (k' == k) = false from beq_eq_false_iff_ne.mpr hne,
        show (p.1 == k) = false from beq_eq_false_iff_ne.mpr (h ▸ hne)]
    · simp only [assocPut]
      rw [if_neg h]
      rw [assocGet, assocGet, List.find?, List.find?]
      cases hpk : p.1 == k with
      | true => rfl
      | false => exact ih

theorem assocPut_assocPut_self {β : Type} :
    ∀ (m : List (String × β)) (k : String) (v v' : β),
      assocPut (assocPut m k v) k v' = assocPut m k v' := by
  intro m k v v'
  induction m with
  | nil => simp [assocPut]
  | cons p rest ih =>
    by_cases h : p.1 = k
    · simp [assocPut, h]
    · simp [assocPut, h, ih]

theorem decode_power_levels_defaults (dec : CJson → Option Int) (fs : CObj)
    (r : RoomPowerLevelsEventContent)
    (h : decode_power_levels dec (.obj fs) = some r) :
    (getField fs "ban" = none → r.ban = default_power_level) ∧
    (getField fs "kick" = none → r.kick = default_power_level) ∧
    (getField fs "redact" = none → r.redact = default_power_level) ∧
    (getField fs "state_default" = none →
      r.state_default = default_power_level) ∧
    (getField fs "events_default" = none → r.events_default = 0) ∧
    (getField fs "invite" = none → r.invite = 0) ∧
    (getField fs "users_default" = none → r.users_default = 0) := by
  rw [decode_power_levels] at h
  simp only [Option.bind_eq_bind, Option.bind_eq_some, Option.pure_def,
    Option.some.injEq] at h
  obtain ⟨ban, hban, events, hevents, ed, hed, inv, hinv, kick, hkick,
    red, hred, sd, hsd, users, husers, ud, hud, nr, hnr, hr⟩ := h
  subst hr
  refine ⟨?_, ?_, ?_, ?_, ?_, ?_, ?_⟩ <;> intro habs
  · rw [field_int, habs] at hban
    exact (Option.some.injEq _ _ ▸ hban).symm
  · rw [field_int, habs] at hkick
    exact (Option.some.injEq _ _ ▸ hkick).symm
  · rw [field_int, habs] at hred
    exact (Option.some.injEq _ _ ▸ hred).symm
  · rw [field_int, habs] at hsd
    exact (Option.some.injEq _ _ ▸ hsd).symm
  · rw [field_int, habs] at hed
    exact (Option.some.injEq _ _ ▸ hed).symm
  · rw [field_int, habs] at hinv
    exact (Option.some.injEq _ _ ▸ hinv).symm
  · rw [field_int, habs] at hud
    exact (Option.some.injEq _ _ ▸ hud).symm

/-- C7: absent `ban`, `kick`, `redact` and `state_default` fields default
to the codebase's default power level constant (which is 50, not 100)
identically under both encodings, and absent `events_default`, `invite`
and `users_default` fields default to 0. -/
theorem power_levels_absent_field_defaults
    (fs : CObj) (rv : RoomVersion) (r : RoomPowerLevelsEventContent)
    (h : deserialize_power_levels (.obj fs) rv = some r) :
    (getField fs "ban" = none → r.ban = default_power_level) ∧
    (getField fs "kick" = none → r.kick = default_power_level) ∧
    (getField fs "redact" = none → r.redact = default_power_level) ∧
    (getField fs "state_default" = none →
      r.state_default = default_power_level) ∧
    (getField fs "events_default" = none → r.events_default = 0) ∧
    (getField fs "invite" = none → r.invite = 0) ∧
    (getField fs "users_default" = none → r.users_default = 0) ∧
    default_power_level ≠ 100 := by
  rw [deserialize_power_levels] at h
  by_cases hrv : rv.integer_power_levels = true
  · rw [if_pos hrv] at h
    obtain ⟨h1, h2, h3, h4, h5, h6, h7⟩ :=
      decode_power_levels_defaults decode_int_strict fs r h
    exact ⟨h1, h2, h3, h4, h5, h6, h7, by decide⟩
  · rw [if_neg hrv] at h
    obtain ⟨h1, h2, h3, h4, h5, h6, h7⟩ :=
      decode_power_levels_defaults decode_int_legacy fs r h
    exact ⟨h1, h2, h3, h4, h5, h6, h7, by decide⟩

/-- C7 witness: the empty content parses under the strict encoding and
the defaults claim applies to it. -/
theorem power_levels_absent_field_defaults_witness :
    deserialize_power_levels (.obj []) (RoomVersion.mk true) =
      some ⟨default_power_level, [], 0, 0, default_power_level,
        default_power_level, default_power_level, [], 0,
        default_power_level⟩ ∧
    default_power_level ≠ 100 :=
  ⟨rfl,
    (power_levels_absent_field_defaults [] (RoomVersion.mk true) _
      rfl).2.2.2.2.2.2.2⟩

/-- C1 counterexample: in the claimed scenario the resolver makes two
network calls (one for `$E1` itself, one for `$A2`), not one: `$E1` is
not locally known, so learning its `auth_events` already takes a
federation fetch before `$A2` can be fetched. -/
theorem scn1_not_one_network_call :
    count_fetches scn1Run.trace = 2 ∧ ¬ count_fetches scn1Run.trace = 1 :=
  ⟨rfl, by intro h; rw [show count_fetches scn1Run.trace = 2 from rfl] at h; omega⟩

/-- C1 amended: in the scenario the resolver makes exactly two network
calls (`$E1` then `$A2`), returns `$E1` as resolved, and `$A2` is
validated and persisted to the outlier store before `$E1` is reported
resolved (the full trace pins the order). -/
theorem scn1_resolution_order :
    count_fetches scn1Run.trace = 2 ∧
    scn1Run.pdus =
      [("$E1", some [("auth_events", .arr [.str "$A1", .str "$A2"])])] ∧
    scn1Run.trace =
      [.fetch "$E1", .fetch "$A2", .validate "$A2", .persist "$A2",
        .validate "$E1", .persist "$E1", .resolved "$E1"] ∧
    assocGet scn1Run.store "$A2" = some [("auth_events", .arr [.str "$A3"])] :=
  ⟨rfl, rfl, rfl, rfl⟩

/-- C2 counterexample: when the canonicalized id `$Y` differs from the
requested id `$X`, the mismatch indeed does not abort resolution (the
event is resolved), but `handle_outlier_pdu` is invoked under the
originally requested id `$X`, never under the canonicalized id `$Y`. -/
theorem scn2_validates_requested_id :
    scn2Ctx.gen ⟨true⟩ (.obj [("t", .str "X")]) = some ("$Y", [("k", .int 1)]) ∧
    ¬ ("$Y" : String) = "$X" ∧
    Action.validate "$X" ∈ scn2Run.trace ∧
    Action.validate "$Y" ∉ scn2Run.trace ∧
    scn2Run.pdus = [("$X", some [("k", .int 1)])] := by
  refine ⟨rfl, ?_, ?_, ?_, rfl⟩
  · intro h
    have := congrArg String.toList h
    simp at this
  · rw [show scn2Run.trace =
      [.fetch "$X", .validate "$X", .persist "$X", .resolved "$X"] from rfl]
    decide
  · rw [show scn2Run.trace =
      [.fetch "$X", .validate "$X", .persist "$X", .resolved "$X"] from rfl]
    decide

theorem fetch_loop_fetched_src (ctx : ResolverCtx) (now : Nat) :
    ∀ (fuel : Nat) (todo : List String) (st : FetchState) (p : String × CObj),
      p ∈ (fetch_loop ctx now fuel todo st).fetched →
      p ∈ st.fetched ∨
        ∃ raw rv calcId, ctx.network p.1 = some raw ∧
          ctx.room_version = some rv ∧ ctx.gen rv raw = some (calcId, p.2) := by
  intro fuel
  induction fuel with
  | zero => intro todo st p h; exact Or.inl h
  | succ fuel ih =>
    intro todo st p h
    cases todo with
    | nil => exact Or.inl h
    | cons next rest =>
      simp only [fetch_loop] at h
      split at h
      · exact ih _ _ _ h
      · split at h
        · exact ih _ _ _ h
        · split at h
          · exact ih _ _ _ h
          · split at h
            · have h2 := ih _ _ _ h
              exact h2
            · rename_i raw hnet
              split at h
              · have h2 := ih _ _ _ h
                exact h2
              · rename_i rv hver
                split at h
                · have h2 := ih _ _ _ h
                  exact h2
                · rename_i cid value hgen
                  rcases ih _ _ _ h with h' | h'
                  · have h'' : p ∈ st.fetched ++ [(next, value)] := h'
                    rcases List.mem_append.mp h'' with h3 | h3
                    · exact Or.inl h3
                    · rw [List.mem_singleton] at h3
                      subst h3
                      exact Or.inr ⟨raw, rv, cid, hnet, hver, hgen⟩
                  · exact Or.inr h'

theorem second_pass_entries_validate_src (ctx : ResolverCtx) (now : Nat) :
    ∀ (entries : List (String × CObj)) (id : String) (st : AdmitState)
      (n : String),
      Action.validate n ∈ (second_pass_entries ctx now entries id st).trace →
      Action.validate n ∈ st.trace ∨ n ∈ entries.map Prod.fst := by
  intro entries
  induction entries with
  | nil => intro id st n h; exact Or.inl h
  | cons e rest ih =>
    intro id st n h
    obtain ⟨next, value⟩ := e
    simp only [second_pass_entries] at h
    split at h
    · rcases ih _ _ _ h with h' | h'
      · exact Or.inl h'
      · exact Or.inr (List.mem_cons_of_mem _ h')
    · split at h
      · rename_i json hadm
        split at h
        · rcases ih _ _ _ h with h' | h'
          · have h'' : Action.validate n ∈
                st.trace ++ [.validate next] ++ [.persist next] ++
                  [.resolved next] := h'
            rcases List.mem_append.mp h'' with h3 | h3
            · rcases List.mem_append.mp h3 with h4 | h4
              · rcases List.mem_append.mp h4 with h5 | h5
                · exact Or.inl h5
                · rw [List.mem_singleton] at h5
                  cases h5
                  exact Or.inr (List.mem_cons_self _ _)
              · rw [List.mem_singleton] at h4
                cases h4
            · rw [List.mem_singleton] at h3
              cases h3
          · exact Or.inr (List.mem_cons_of_mem _ h')
        · rcases ih _ _ _ h with h' | h'
          · have h'' : Action.validate n ∈
                st.trace ++ [.validate next] ++ [.persist next] := h'
            rcases List.mem_append.mp h'' with h3 | h3
            · rcases List.mem_append.mp h3 with h4 | h4
              · exact Or.inl h4
              · rw [List.mem_singleton] at h4
                cases h4
                exact Or.inr (List.mem_cons_self _ _)
            · rw [List.mem_singleton] at h3
              cases h3
          · exact Or.inr (List.mem_cons_of_mem _ h')
      · rcases ih _ _ _ h with h' | h'
        · have h'' : Action.validate n ∈ st.trace ++ [.validate next] := h'
          rcases List.mem_append.mp h'' with h3 | h3
          · exact Or.inl h3
          · rw [List.mem_singleton] at h3
            cases h3
            exact Or.inr (List.mem_cons_self _ _)
        · exact Or.inr (List.mem_cons_of_mem _ h')

theorem second_pass_validate_src (ctx : ResolverCtx) (now : Nat) :
    ∀ (es : List OuterEntry) (st : AdmitState) (n : String),
      Action.validate n ∈ (second_pass ctx now es st).trace →
      Action.validate n ∈ st.trace ∨
        ∃ e ∈ es, n ∈ e.fetched.map Prod.fst := by
  intro es
  induction es with
  | nil => intro st n h; exact Or.inl h
  | cons e rest ih =>
    intro st n h
    simp only [second_pass] at h
    rcases ih _ _ h with h' | h'
    · rcases second_pass_entries_validate_src ctx now _ _ _ _ h' with h2 | h2
      · by_cases hl : e.local_pdu = true
        · rw [if_pos hl] at h2
          have h3 : Action.validate n ∈ st.trace ++ [.resolved e.id] := h2
          rcases List.mem_append.mp h3 with h4 | h4
          · exact Or.inl h4
          · rw [List.mem_singleton] at h4
            cases h4
        · rw [if_neg hl] at h2
          exact Or.inl h2
      · rw [List.map_reverse, List.mem_reverse] at h2
        exact Or.inr ⟨e, List.mem_cons_self _ _, h2⟩
    · obtain ⟨e', he', hn⟩ := h'
      exact Or.inr ⟨e', List.mem_cons_of_mem _ he', hn⟩

/-- C2 amended: a canonicalized-id mismatch is only logged and does not
abort — on a successful fetch the loop records the event under the
*originally requested* id whatever the canonicalized id is, and
continues with its auth references; every fetched entry is keyed by the
requested id with the value the canonicalizer produced; and every
`handle_outlier_pdu` invocation of the second pass uses such a requested
id (never the canonicalized id when the two differ). -/
theorem resolver_validates_under_requested_id :
    (∀ (ctx : ResolverCtx) (now fuel : Nat) (next : String)
      (todo : List String) (st : FetchState) (raw : CJson)
      (rv : RoomVersion) (calcId : String) (value : CObj),
      backoff_skip st.reg now 120 28800 next = false →
      next ∉ st.seen → next ∉ ctx.timeline →
      ctx.network next = some raw → ctx.room_version = some rv →
      ctx.gen rv raw = some (calcId, value) →
      fetch_loop ctx now (fuel + 1) (next :: todo) st =
        fetch_loop ctx now fuel (todo ++ auth_event_ids value)
          { st with
            trace := st.trace ++ [.fetch next],
            fetched := st.fetched ++ [(next, value)],
            seen := st.seen ++ [next] }) ∧
    (∀ (ctx : ResolverCtx) (now fuel : Nat) (todo : List String)
      (st : FetchState) (p : String × CObj),
      p ∈ (fetch_loop ctx now fuel todo st).fetched →
      p ∈ st.fetched ∨
        ∃ raw rv calcId, ctx.network p.1 = some raw ∧
          ctx.room_version = some rv ∧ ctx.gen rv raw = some (calcId, p.2)) ∧
    (∀ (ctx : ResolverCtx) (now : Nat) (es : List OuterEntry)
      (st : AdmitState) (n : String),
      Action.validate n ∈ (second_pass ctx now es st).trace →
      Action.validate n ∈ st.trace ∨
        ∃ e ∈ es, n ∈ e.fetched.map Prod.fst) := by
  refine ⟨?_, fun ctx now => fetch_loop_fetched_src ctx now,
    fun ctx now => second_pass_validate_src ctx now⟩
  intro ctx now fuel next todo st raw rv calcId value h1 h2 h3 h4 h5 h6
  simp only [fetch_loop, h1, h4, h5, h6]
  rw [if_neg ?_, if_neg ?_, if_neg ?_]
  · exact h3
  · exact h2
  · simp [h1]

theorem RegEvolves.refl (now : Nat) (reg : Registry) : RegEvolves now reg reg :=
  fun _ => Or.inl rfl

theorem RegEvolves.trans {now : Nat} {r1 r2 r3 : Registry}
    (h12 : RegEvolves now r1 r2) (h23 : RegEvolves now r2 r3) :
    RegEvolves now r1 r3 := by
  intro id
  rcases h23 id with h | ⟨k, hk, hk1, hkc⟩
  · rcases h12 id with h' | ⟨k, hk, hk1, hkc⟩
    · exact Or.inl (h.trans h')
    · exact Or.inr ⟨k, h.trans hk, hk1, hkc⟩
  · rcases h12 id with h' | ⟨k', hk', _, hkc'⟩
    · rw [h'] at hkc
      exact Or.inr ⟨k, hk, hk1, hkc⟩
    · refine Or.inr ⟨k, hk, hk1, le_trans hkc' ?_⟩
      rw [hk'] at hkc
      simpa [regCount] using hkc

theorem u64_saturating_add_one_pos (n : Nat) : 1 ≤ u64_saturating_add_one n := by
  unfold u64_saturating_add_one
  split <;> omega

theorem le_u64_saturating_add_one (n : Nat) : n ≤ u64_saturating_add_one n := by
  unfold u64_saturating_add_one
  split <;> omega

theorem back_off_evolves (now : Nat) (reg : Registry) (id : String) :
    RegEvolves now reg (back_off reg now id) := by
  intro id'
  by_cases h : id' = id
  · subst h
    unfold back_off
    cases hg : assocGet reg id' with
    | none =>
      refine Or.inr ⟨1, assocGet_assocPut_self reg id' (now, 1), le_refl 1, ?_⟩
      simp [hg, regCount]
    | some e =>
      obtain ⟨t, n⟩ := e
      refine Or.inr ⟨u64_saturating_add_one n,
        assocGet_assocPut_self reg id' _, u64_saturating_add_one_pos n, ?_⟩
      simpa [regCount] using le_u64_saturating_add_one n
  · unfold back_off
    have hne : id ≠ id' := fun he => h he.symm
    cases hg : assocGet reg id with
    | none => exact Or.inl (assocGet_assocPut_ne reg id' id (now, 1) hne)
    | some e =>
      obtain ⟨t, n⟩ := e
      exact Or.inl (assocGet_assocPut_ne reg id' id
        (now, u64_saturating_add_one n) hne)

theorem fetch_loop_reg_evolves (ctx : ResolverCtx) (now : Nat) :
    ∀ (fuel : Nat) (todo : List String) (st : FetchState),
      RegEvolves now st.reg (fetch_loop ctx now fuel todo st).reg := by
  intro fuel
  induction fuel with
  | zero => intro todo st; exact RegEvolves.refl now st.reg
  | succ fuel ih =>
    intro todo st
    cases todo with
    | nil => exact RegEvolves.refl now st.reg
    | cons next rest =>
      simp only [fetch_loop]
      split
      · exact ih _ _
      · split
        · exact ih _ _
        · split
          · exact ih _ _
          · split
            · exact RegEvolves.trans (back_off_evolves now st.reg next) (ih _ _)
            · split
              · exact RegEvolves.trans (back_off_evolves now st.reg next)
                  (ih _ _)
              · split
                · exact RegEvolves.trans (back_off_evolves now st.reg next)
                    (ih _ _)
                · exact ih _ _

theorem second_pass_entries_reg_evolves (ctx : ResolverCtx) (now : Nat) :
    ∀ (entries : List (String × CObj)) (id : String) (st : AdmitState),
      RegEvolves now st.reg (second_pass_entries ctx now entries id st).reg := by
  intro entries
  induction entries with
  | nil => intro id st; exact RegEvolves.refl now st.reg
  | cons e rest ih =>
    intro id st
    obtain ⟨next, value⟩ := e
    simp only [second_pass_entries]
    split
    · exact ih _ _
    · split
      · split
        · exact ih _ _
        · exact ih _ _
      · exact RegEvolves.trans (back_off_evolves now st.reg next) (ih _ _)

theorem second_pass_reg_evolves (ctx : ResolverCtx) (now : Nat) :
    ∀ (es : List OuterEntry) (st : AdmitState),
      RegEvolves now st.reg (second_pass ctx now es st).reg := by
  intro es
  induction es with
  | nil => intro st; exact RegEvolves.refl now st.reg
  | cons e rest ih =>
    intro st
    simp only [second_pass]
    refine RegEvolves.trans ?_ (RegEvolves.trans
      (second_pass_entries_reg_evolves ctx now e.fetched.reverse e.id _) (ih _))
    split
    · exact RegEvolves.refl now st.reg
    · exact RegEvolves.refl now st.reg

theorem first_pass_reg_evolves (ctx : ResolverCtx) (now fuel : Nat) :
    ∀ (events : List String) (reg : Registry) (tr : List Action),
      RegEvolves now reg (first_pass ctx now fuel events reg tr).2.1 := by
  intro events
  induction events with
  | nil => intro reg tr; exact RegEvolves.refl now reg
  | cons id rest ih =>
    intro reg tr
    simp only [first_pass]
    split
    · exact ih _ _
    · exact RegEvolves.trans
        (fetch_loop_reg_evolves ctx now fuel [id] ⟨reg, [], [], tr⟩) (ih _ _)

theorem fetch_and_handle_outliers_reg_evolves (ctx : ResolverCtx)
    (now fuel : Nat) (events : List String) (reg0 : Registry)
    (store0 : List (String × CObj)) :
    RegEvolves now reg0
      (fetch_and_handle_outliers ctx now fuel events reg0 store0).reg :=
  RegEvolves.trans (first_pass_reg_evolves ctx now fuel events reg0 [])
    (second_pass_reg_evolves ctx now _ _)

theorem fetch_loop_trace_mono (ctx : ResolverCtx) (now : Nat) :
    ∀ (fuel : Nat) (todo : List String) (st : FetchState),
      ∃ tr, (fetch_loop ctx now fuel todo st).trace = st.trace ++ tr := by
  intro fuel
  induction fuel with
  | zero => intro todo st; exact ⟨[], by simp [fetch_loop]⟩
  | succ fuel ih =>
    intro todo st
    cases todo with
    | nil => exact ⟨[], by simp [fetch_loop]⟩
    | cons next rest =>
      simp only [fetch_loop]
      split
      · exact ih _ _
      · split
        · exact ih _ _
        · split
          · exact ih _ _
          · split
            · obtain ⟨tr, htr⟩ := ih rest
                { st with
                  reg := back_off st.reg now next,
                  trace := st.trace ++ [.fetch next] }
              exact ⟨[.fetch next] ++ tr, by rw [htr]; simp⟩
            · split
              · obtain ⟨tr, htr⟩ := ih rest
                  { st with
                    reg := back_off st.reg now next,
                    trace := st.trace ++ [.fetch next] }
                exact ⟨[.fetch next] ++ tr, by rw [htr]; simp⟩
              · split
                · obtain ⟨tr, htr⟩ := ih rest
                    { st with
                      reg := back_off st.reg now next,
                      trace := st.trace ++ [.fetch next] }
                  exact ⟨[.fetch next] ++ tr, by rw [htr]; simp⟩
                · rename_i cid value hgen
                  obtain ⟨tr, htr⟩ := ih (rest ++ auth_event_ids value)
                    { st with
                      trace := st.trace ++ [.fetch next],
                      fetched := st.fetched ++ [(next, value)],
                      seen := st.seen ++ [next] }
                  exact ⟨[.fetch next] ++ tr, by rw [htr]; simp⟩

theorem second_pass_entries_trace_mono (ctx : ResolverCtx) (now : Nat) :
    ∀ (entries : List (String × CObj)) (id : String) (st : AdmitState),
      ∃ tr, (second_pass_entries ctx now entries id st).trace =
        st.trace ++ tr := by
  intro entries
  induction entries with
  | nil => intro id st; exact ⟨[], by simp [second_pass_entries]⟩
  | cons e rest ih =>
    intro id st
    obtain ⟨next, value⟩ := e
    simp only [second_pass_entries]
    split
    · exact ih _ _
    · split
      · rename_i json hadm
        split
        · obtain ⟨tr, htr⟩ := ih id
            { st with
              store := assocPut st.store next json,
              trace := st.trace ++ [.validate next] ++ [.persist next] ++
                [.resolved next],
              pdus := st.pdus ++ [(next, some json)] }
          exact ⟨[.validate next] ++ [.persist next] ++ [.resolved next] ++ tr,
            by rw [htr]; simp⟩
        · obtain ⟨tr, htr⟩ := ih id
            { st with
              store := assocPut st.store next json,
              trace := st.trace ++ [.validate next] ++ [.persist next] }
          exact ⟨[.validate next] ++ [.persist next] ++ tr, by rw [htr]; simp⟩
      · obtain ⟨tr, htr⟩ := ih id
          { st with
            reg := back_off st.reg now next,
            trace := st.trace ++ [.validate next] }
        exact ⟨[.validate next] ++ tr, by rw [htr]; simp⟩

theorem fetch_loop_attempts (ctx : ResolverCtx) (now fuel : Nat)
    (next : String) (todo : List String) (st : FetchState)
    (h1 : backoff_skip st.reg now 120 28800 next = false)
    (h2 : next ∉ st.seen) (h3 : next ∉ ctx.timeline) :
    Action.fetch next ∈ (fetch_loop ctx now (fuel + 1) (next :: todo) st).trace := by
  simp only [fetch_loop]
  rw [if_neg (by simp [h1]), if_neg h2, if_neg h3]
  split
  · obtain ⟨tr, htr⟩ := fetch_loop_trace_mono ctx now fuel todo
      { st with
        reg := back_off st.reg now next,
        trace := st.trace ++ [.fetch next] }
    rw [htr]
    simp
  · split
    · obtain ⟨tr, htr⟩ := fetch_loop_trace_mono ctx now fuel todo
        { st with
          reg := back_off st.reg now next,
          trace := st.trace ++ [.fetch next] }
      rw [htr]
      simp
    · split
      · obtain ⟨tr, htr⟩ := fetch_loop_trace_mono ctx now fuel todo
          { st with
            reg := back_off st.reg now next,
            trace := st.trace ++ [.fetch next] }
        rw [htr]
        simp
      · rename_i cid value hgen
        obtain ⟨tr, htr⟩ := fetch_loop_trace_mono ctx now fuel
          (todo ++ auth_event_ids value)
          { st with
            trace := st.trace ++ [.fetch next],
            fetched := st.fetched ++ [(next, value)],
            seen := st.seen ++ [next] }
        rw [htr]
        simp

theorem second_pass_entries_attempts (ctx : ResolverCtx) (now : Nat)
    (next : String) (value : CObj) (rest : List (String × CObj))
    (id : String) (st : AdmitState)
    (h : backoff_skip st.reg now 300 86400 next = false) :
    Action.validate next ∈
      (second_pass_entries ctx now ((next, value) :: rest) id st).trace := by
  simp only [second_pass_entries]
  rw [if_neg (by simp [h])]
  split
  · rename_i json hadm
    split
    · obtain ⟨tr, htr⟩ := second_pass_entries_trace_mono ctx now rest id
        { st with
          store := assocPut st.store next json,
          trace := st.trace ++ [.validate next] ++ [.persist next] ++
            [.resolved next],
          pdus := st.pdus ++ [(next, some json)] }
      rw [htr]
      simp
    · obtain ⟨tr, htr⟩ := second_pass_entries_trace_mono ctx now rest id
        { st with
          store := assocPut st.store next json,
          trace := st.trace ++ [.validate next] ++ [.persist next] }
      rw [htr]
      simp
  · obtain ⟨tr, htr⟩ := second_pass_entries_trace_mono ctx now rest id
      { st with
        reg := back_off st.reg now next,
        trace := st.trace ++ [.validate next] }
    rw [htr]
    simp

/-- C3: for an entry of `tries` recorded failures last stamped at `t`,
an attempt is skipped iff `now - t < min(max, min * 2^tries)` with
`(min, max)` = (120 s, 28800 s) at the chain-resolution fetch site and
(300 s, 86400 s) at the re-validation site (and a non-skipped id is
actually attempted); recording a failure inserts a fresh `(now, 1)`
entry or re-stamps the timestamp and saturating-increments the count;
and a whole resolver call mutates the registry only that way — every id
is untouched or holds a failure-stamped entry whose count never
decreased (no success-path reset). -/
theorem backoff_registry_spec :
    (∀ (reg : Registry) (now : Nat) (id : String),
      assocGet reg id = none →
      back_off reg now id = assocPut reg id (now, 1)) ∧
    (∀ (reg : Registry) (now : Nat) (id : String) (t n : Nat),
      assocGet reg id = some (t, n) →
      back_off reg now id = assocPut reg id (now, u64_saturating_add_one n)) ∧
    (∀ n, n ≤ 2 ^ 64 - 1 → u64_saturating_add_one n ≤ 2 ^ 64 - 1) ∧
    (∀ n, n ≤ u64_saturating_add_one n) ∧
    (∀ (reg : Registry) (now : Nat) (id : String) (t tries : Nat),
      assocGet reg id = some (t, tries) →
      (backoff_skip reg now 120 28800 id = true ↔
        now - t < Nat.min 28800 (120 * 2 ^ tries))) ∧
    (∀ (reg : Registry) (now : Nat) (id : String) (t tries : Nat),
      assocGet reg id = some (t, tries) →
      (backoff_skip reg now 300 86400 id = true ↔
        now - t < Nat.min 86400 (300 * 2 ^ tries))) ∧
    (∀ (ctx : ResolverCtx) (now fuel : Nat) (next : String)
      (todo : List String) (st : FetchState),
      backoff_skip st.reg now 120 28800 next = true →
      fetch_loop ctx now (fuel + 1) (next :: todo) st =
        fetch_loop ctx now fuel todo st) ∧
    (∀ (ctx : ResolverCtx) (now : Nat) (next : String) (value : CObj)
      (rest : List (String × CObj)) (id : String) (st : AdmitState),
      backoff_skip st.reg now 300 86400 next = true →
      second_pass_entries ctx now ((next, value) :: rest) id st =
        second_pass_entries ctx now rest id st) ∧
    (∀ (ctx : ResolverCtx) (now fuel : Nat) (next : String)
      (todo : List String) (st : FetchState),
      backoff_skip st.reg now 120 28800 next = false →
      next ∉ st.seen → next ∉ ctx.timeline →
      Action.fetch next ∈
        (fetch_loop ctx now (fuel + 1) (next :: todo) st).trace) ∧
    (∀ (ctx : ResolverCtx) (now : Nat) (next : String) (value : CObj)
      (rest : List (String × CObj)) (id : String) (st : AdmitState),
      backoff_skip st.reg now 300 86400 next = false →
      Action.validate next ∈
        (second_pass_entries ctx now ((next, value) :: rest) id st).trace) ∧
    (∀ (ctx : ResolverCtx) (now fuel : Nat) (events : List String)
      (reg0 : Registry) (store0 : List (String × CObj)),
      RegEvolves now reg0
        (fetch_and_handle_outliers ctx now fuel events reg0 store0).reg) := by
  refine ⟨?_, ?_, ?_, ?_, ?_, ?_, ?_, ?_,
    fetch_loop_attempts, second_pass_entries_attempts,
    fetch_and_handle_outliers_reg_evolves⟩
  · intro reg now id h
    rw [back_off, h]
  · intro reg now id t n h
    rw [back_off, h]
  · intro n h
    unfold u64_saturating_add_one
    split <;> omega
  · exact le_u64_saturating_add_one
  · intro reg now id t tries h
    rw [backoff_skip, h]
    exact decide_eq_true_iff
  · intro reg now id t tries h
    rw [backoff_skip, h]
    exact decide_eq_true_iff
  · intro ctx now fuel next todo st h
    simp only [fetch_loop]
    rw [if_pos h]
  · intro ctx now next value rest id st h
    simp only [second_pass_entries]
    rw [if_pos h]

/-- C5: the change is denied whenever a non-creator actor's effective
power does not exceed the target's (with or without a power-levels
event), and the creation-event sender may always adjust their own level,
in particular when no power-levels event exists. -/
theorem can_change_user_power_level_spec :
    (∀ (pl : RoomPowerLevelsEventContent) (create_sender actor target : String),
      actor ≠ create_sender →
      effective_power pl actor ≤ effective_power pl target →
      can_change_user_power_level (some pl) create_sender actor target =
        false) ∧
    (∀ (create_sender actor target : String), actor ≠ create_sender →
      can_change_user_power_level none create_sender actor target = false) ∧
    (∀ (pls : Option RoomPowerLevelsEventContent) (create_sender : String),
      can_change_user_power_level pls create_sender create_sender
        create_sender = true) := by
  refine ⟨?_, ?_, ?_⟩
  · intro pl create_sender actor target hne hle
    unfold can_change_user_power_level user_can_change_user_power_level
    have h1 : decide (effective_power pl target < effective_power pl actor)
        = false := decide_eq_false (not_lt.mpr hle)
    have h2 : (create_sender == actor) = false :=
      beq_eq_false_iff_ne.mpr (fun he => hne he.symm)
    simp [h1, h2]
  · intro create_sender actor target hne
    unfold can_change_user_power_level
    have h2 : (create_sender == actor) = false :=
      beq_eq_false_iff_ne.mpr (fun he => hne he.symm)
    simp [h2]
  · intro pls create_sender
    unfold can_change_user_power_level
    simp

/-- C8: a get after a put returns the most recently put object for that
id (a second put overwrites, with no merge), a put leaves every other id
unchanged, and a get of an id never put fails with `NotFound`. -/
theorem outlier_store_spec :
    (∀ (db : OutlierDb) (k : String) (v : CObj),
      get_outlier_pdu_json (add_pdu_outlier db k v) k = .ok v) ∧
    (∀ (db : OutlierDb) (k : String) (v v' : CObj),
      add_pdu_outlier (add_pdu_outlier db k v) k v' = add_pdu_outlier db k v') ∧
    (∀ (db : OutlierDb) (k k' : String) (v : CObj), k' ≠ k →
      get_outlier_pdu_json (add_pdu_outlier db k' v) k =
        get_outlier_pdu_json db k) ∧
    (∀ (db : OutlierDb) (k : String), (∀ p ∈ db, p.1 ≠ k) →
      get_outlier_pdu_json db k = .error .notFound) := by
  refine ⟨?_, ?_, ?_, ?_⟩
  · intro db k v
    rw [get_outlier_pdu_json, add_pdu_outlier, assocGet_assocPut_self]
  · intro db k v v'
    rw [add_pdu_outlier, add_pdu_outlier, add_pdu_outlier,
      assocPut_assocPut_self]
  · intro db k k' v h
    rw [get_outlier_pdu_json, add_pdu_outlier, assocGet_assocPut_ne _ _ _ _ h,
      get_outlier_pdu_json]
  · intro db k h
    rw [get_outlier_pdu_json]
    have : assocGet db k = none := by
      rw [assocGet]
      rw [List.find?_eq_none.mpr]
      · rfl
      · intro p hp
        simpa using h p hp
    rw [this]

/-! ## Signature-verification wrappers (`server_keys/verify.rs`) -/

theorem getField_insertField :
    ∀ (fs : CObj) (k : String) (v : CJson),
      getField (insertField fs k v) k = some v := by
  intro fs k v
  induction fs with
  | nil => simp [insertField, getField, List.find?]
  | cons p rest ih =>
    by_cases h : p.1 = k
    · simp [insertField, h, getField, List.find?]
    · simp only [insertField]
      rw [if_neg (by exact h)]
      rw [getField, List.find?]
      rw [show (p.1 == k) = false from beq_eq_false_iff_ne.mpr h]
      exact ih

/-- C10: both wrappers stamp `event_id` only after verification succeeds
and the stamped value is the returned derived id; canonicalization or
verification failure (and, for the no-fetch variant, missing cached
keys) yields an error and no stamped object. -/
theorem validate_and_add_event_id_spec :
    (∀ (gen : CJson → Option (String × CObj)) (verify : CObj → Bool)
      (pdu : CJson) (id : String) (obj : CObj),
      validate_and_add_event_id gen verify pdu = .ok (id, obj) →
      ∃ v, gen pdu = some (id, v) ∧ verify v = true ∧
        obj = insertField v "event_id" (.str id) ∧
        getField obj "event_id" = some (.str id)) ∧
    (∀ (gen : CJson → Option (String × CObj)) (verify : CObj → Bool)
      (pdu : CJson), gen pdu = none →
      validate_and_add_event_id gen verify pdu = .error .formatError) ∧
    (∀ (gen : CJson → Option (String × CObj)) (verify : CObj → Bool)
      (pdu : CJson) (id : String) (v : CObj),
      gen pdu = some (id, v) → verify v = false →
      validate_and_add_event_id gen verify pdu = .error .badServerResponse) ∧
    (∀ (gen : CJson → Option (String × CObj)) (keys verify : CObj → Bool)
      (pdu : CJson) (id : String) (obj : CObj),
      validate_and_add_event_id_no_fetch gen keys verify pdu = .ok (id, obj) →
      ∃ v, gen pdu = some (id, v) ∧ keys v = true ∧ verify v = true ∧
        obj = insertField v "event_id" (.str id) ∧
        getField obj "event_id" = some (.str id)) ∧
    (∀ (gen : CJson → Option (String × CObj)) (keys verify : CObj → Bool)
      (pdu : CJson) (id : String) (v : CObj),
      gen pdu = some (id, v) → keys v = false →
      validate_and_add_event_id_no_fetch gen keys verify pdu =
        .error .badServerResponse) ∧
    (∀ (gen : CJson → Option (String × CObj)) (keys verify : CObj → Bool)
      (pdu : CJson), gen pdu = none →
      validate_and_add_event_id_no_fetch gen keys verify pdu =
        .error .formatError) := by
  refine ⟨?_, ?_, ?_, ?_, ?_, ?_⟩
  · intro gen verify pdu id obj h
    rw [validate_and_add_event_id] at h
    split at h
    · cases h
    · rename_i eid value heq
      split at h
      · rename_i hver
        cases h
        exact ⟨value, heq, hver, rfl, getField_insertField value "event_id" _⟩
      · cases h
  · intro gen verify pdu h
    rw [validate_and_add_event_id, h]
  · intro gen verify pdu id v hgen hver
    rw [validate_and_add_event_id, hgen]
    simp [hver]
  · intro gen keys verify pdu id obj h
    rw [validate_and_add_event_id_no_fetch] at h
    split at h
    · cases h
    · rename_i eid value heq
      split at h
      · cases h
      · rename_i hkeys
        split at h
        · rename_i hver
          cases h
          refine ⟨value, heq, ?_, hver, rfl,
            getField_insertField value "event_id" _⟩
          revert hkeys
          cases keys value <;> simp
        · cases h
  · intro gen keys verify pdu id v hgen hkeys
    rw [validate_and_add_event_id_no_fetch, hgen]
    simp [hkeys]
  · intro gen keys verify pdu h
    rw [validate_and_add_event_id_no_fetch, h]

theorem except_bind_ok {ε α β : Type} (x : Except ε α) (f : α → Except ε β)
    (b : β) : (x >>= f) = Except.ok b ↔ ∃ a, x = .ok a ∧ f a = .ok b := by
  cases x with
  | error e =>
    constructor
    · intro h
      exact absurd h (by simp [Bind.bind, Except.bind])
    · rintro ⟨a, ha, _⟩
      cases ha
  | ok a =>
    constructor
    · intro h
      exact ⟨a, rfl, h⟩
    · rintro ⟨a', ha, hf⟩
      cases ha
      exact hf

theorem guard_leave_ok {b : Bool} {e : LeaveError} {u : Unit}
    (h : guard_leave b e = .ok u) : b = true := by
  cases b
  · exact absurd h (by simp [guard_leave])
  · rfl

theorem option_or_ok {α : Type} {o : Option α} {e : LeaveError} {a : α}
    (h : option_or o e = .ok a) : o = some a := by
  cases o with
  | none => exact absurd h (by simp [option_or])
  | some x =>
    rw [option_or] at h
    cases h
    rfl

theorem get_string_field_ok {value : CObj} {k : String}
    {missing bad : LeaveError} {s : String}
    (h : get_string_field value k missing bad = .ok s) :
    getField value k = some (.str s) := by
  rw [get_string_field] at h
  split at h
  · cases h
  · rename_i heq
    cases h
    exact heq
  · cases h

theorem get_membership_ok {value : CObj} {m : String}
    (h : get_membership value = .ok m) :
    ∃ cfs, getField value "content" = some (.obj cfs) ∧
      getField cfs "membership" = some (.str m) := by
  rw [get_membership] at h
  split at h
  · cases h
  · rename_i cfs heq
    split at h
    · rename_i hm
      cases h
      exact ⟨cfs, heq, hm⟩
    · cases h
  · cases h

theorem leave_checks_ok_shape (ctx : LeaveCtx) (origin room_id : String)
    (pdu : CJson) (pr : String × CObj)
    (h : leave_checks ctx origin room_id pdu = .ok pr) :
    ∃ rv, ctx.room_version = some rv ∧ ctx.gen rv pdu = some pr ∧
      leave_room_id_matches pr.2 room_id = true ∧
      leave_membership_is_leave pr.2 = true ∧
      leave_type_is_member pr.2 = true ∧
      leave_sender_from_origin pr.2 origin = true := by
  rw [leave_checks] at h
  simp only [except_bind_ok] at h
  obtain ⟨u1, hu1, u2, hu2, rv, hrv, pr', hpr, erid, herid, u3, hu3, u4, hu4,
    mem, hmem, u5, hu5, etype, hetype, u6, hu6, sender, hsender, sserver,
    hsserver, u7, hu7, u8, hu8, skey, hskey, u9, hu9, u10, hu10, hpure⟩ := h
  have hpr' : pr' = pr := by
    rw [show (pure pr' : Except LeaveError (String × CObj)) = .ok pr' from rfl]
      at hpure
    cases hpure
    rfl
  subst hpr'
  refine ⟨rv, option_or_ok hrv, option_or_ok hpr, ?_, ?_, ?_, ?_⟩
  · rw [leave_room_id_matches, get_string_field_ok herid]
    exact guard_leave_ok hu4
  · obtain ⟨cfs, hc, hm⟩ := get_membership_ok hmem
    rw [leave_membership_is_leave, hc]
    simp only [hm]
    exact guard_leave_ok hu5
  · rw [leave_type_is_member, get_string_field_ok hetype]
    exact guard_leave_ok hu6
  · rw [leave_sender_from_origin, get_string_field_ok hsender]
    simp only [option_or_ok hsserver]
    exact guard_leave_ok hu8

/-- C9 amended: each of the four named request-shape checks (room-id
mismatch, non-leave membership, non-membership event type, sender not
from the requesting origin) rejects before the event is admitted —
whenever `handle_incoming_pdu` is reached, all four conditions hold on
the canonicalized body — and every run that never reaches the admitter
ends in a request-level error; but these are not the only error causes:
an admission failure (among others) also returns a request-level error
(see the counterexample). -/
theorem create_leave_event_shape_checks :
    (∀ (ctx : LeaveCtx) (origin room_id : String) (pdu : CJson),
      (create_leave_event ctx origin room_id pdu).2 = true →
      ∃ rv pr, ctx.room_version = some rv ∧ ctx.gen rv pdu = some pr ∧
        leave_room_id_matches pr.2 room_id = true ∧
        leave_membership_is_leave pr.2 = true ∧
        leave_type_is_member pr.2 = true ∧
        leave_sender_from_origin pr.2 origin = true) ∧
    (∀ (ctx : LeaveCtx) (origin room_id : String) (pdu : CJson),
      (create_leave_event ctx origin room_id pdu).2 = false →
      ∃ e, (create_leave_event ctx origin room_id pdu).1 = .error e) := by
  constructor
  · intro ctx origin room_id pdu h
    rw [create_leave_event] at h
    split at h
    · simp at h
    · rename_i pr hok
      obtain ⟨rv, h1, h2, h3, h4, h5, h6⟩ :=
        leave_checks_ok_shape ctx origin room_id pdu pr hok
      exact ⟨rv, pr, h1, h2, h3, h4, h5, h6⟩
  · intro ctx origin room_id pdu h
    rw [create_leave_event] at h ⊢
    split at h
    · rename_i e _
      exact ⟨e, rfl⟩
    · rename_i pr hok
      split at h <;> simp_all

/-- C9 counterexample: the endpoint returns a request-level error on a
request that violates none of the four named shape conditions — the
admitter's failure propagates to the remote peer — so errors are not
returned *exactly* for request-shape violations. -/
theorem create_leave_event_error_beyond_shape :
    (create_leave_event scn3Ctx "s" "!r:s" (.obj scn3Value)).1 =
      .error .admitFailed ∧
    (create_leave_event scn3Ctx "s" "!r:s" (.obj scn3Value)).2 = true ∧
    leave_room_id_matches scn3Value "!r:s" = true ∧
    leave_membership_is_leave scn3Value = true ∧
    leave_type_is_member scn3Value = true ∧
    leave_sender_from_origin scn3Value "s" = true :=
  ⟨rfl, rfl, rfl, rfl, rfl, rfl⟩

end Tuwunel
